import Mathlib

/-!
Verification of the top-bar search ranking, the selection controller, the
scroll-phase machine and the scroll-to-section hook of the website repository.

Strings are modelled as lists of characters (`Str`).  JavaScript's
`toLowerCase`/`toUpperCase` are modelled character-wise by Lean's
`Char.toLower`/`Char.toUpper` (the basic-latin case mapping), `trim` by
dropping whitespace on both ends, `startsWith` by `strStarts` and `includes`
by `strHas`.  `Array.prototype.sort` is guaranteed stable for a consistent
comparator, so it is modelled by the stable `List.insertionSort`.
-/

/-! ## Definitions: string model -/

/-- A query / label / keyword: a JavaScript string as a list of characters. -/
abbrev Str := List Char

/-- Model of `String.prototype.toLowerCase`, character by character. -/
def strLower (s : Str) : Str := s.map Char.toLower

/-- Model of `String.prototype.toUpperCase`, character by character. -/
def strUpper (s : Str) : Str := s.map Char.toUpper

/-- Model of `String.prototype.trim`: drop whitespace from both ends. -/
def strTrim (s : Str) : Str :=
  ((s.dropWhile Char.isWhitespace).reverse.dropWhile Char.isWhitespace).reverse

/-- Model of `s.startsWith(q)`: `strStarts s q` is true when `q` begins `s`. -/
def strStarts : Str → Str → Bool
  | _, [] => true
  | [], _ :: _ => false
  | c :: cs, d :: ds => (c == d) && strStarts cs ds

/-- Model of `s.includes(q)`: `strHas s q` is true when `q` occurs inside `s`. -/
def strHas : Str → Str → Bool
  | [], q => strStarts [] q
  | c :: cs, q => strStarts (c :: cs) q || strHas cs q

/-! ## Definitions: search catalog and ranking (`TopBar.tsx`, `searchResults`) -/

/-- The `type` field of a searchable item: 'page' | 'section' | 'action' | 'content'. -/
inductive EntryKind where
  | page
  | sectionKind
  | action
  | content
  deriving DecidableEq

/-- One searchable catalog entry (the `SearchResult` interface of `TopBar.tsx`).
`anchor` is the optional `section` field (renamed: `section` is reserved in Lean). -/
structure SearchItem where
  id : Str
  label : Str
  kind : EntryKind
  path : Str
  anchor : Option Str
  keywords : Option (List Str)
  priority : Option Int
  deriving DecidableEq

/-- Model of `item.keywords?.some(p)`: `false` when `keywords` is absent. -/
def kwSome (kws : Option (List Str)) (p : Str → Bool) : Bool :=
  match kws with
  | some ks => ks.any p
  | none => false

/-- The six-tier base match score computed inside `searchResults` for one item,
before the priority is added.  `query` is the already lower-cased query;
`strLower item.label` is the `labelLower` local of the source, inlined. -/
def baseScore (query : Str) (item : SearchItem) : Int :=
  if strLower item.label = query then 1000
  else if strStarts (strLower item.label) query then 500
  else if strHas (strLower item.label) query then 300
  else if kwSome item.keywords (fun k => strLower k = query) then 200
  else if kwSome item.keywords (fun k => strStarts (strLower k) query) then 150
  else if kwSome item.keywords (fun k => strHas (strLower k) query) then 100
  else 0

/-- The value of the JavaScript expression `item.priority || 50`.  Both an
absent priority and an explicit priority `0` are falsy and yield `50`. -/
def effPriority (p : Option Int) : Int :=
  match p with
  | some v => if v = 0 then 50 else v
  | none => 50

/-- The full score of one item: `if (score > 0) score += item.priority || 50`. -/
def itemScore (query : Str) (item : SearchItem) : Int :=
  if baseScore query item > 0 then baseScore query item + effPriority item.priority
  else baseScore query item

/-- The `scoredItems` list of `searchResults`: each catalog item paired with
its score against the lower-cased query. -/
def scoredCatalog (searchQuery : Str) (items : List SearchItem) : List (SearchItem × Int) :=
  items.map (fun item => (item, itemScore (strLower searchQuery) item))

/-- The comparator `(a, b) => b.score - a.score`: `a` may stay before `b`
exactly when `b.score ≤ a.score` (descending order). -/
def rankRel (a b : SearchItem × Int) : Prop := b.2 ≤ a.2

instance : DecidableRel rankRel := fun a b => inferInstanceAs (Decidable (b.2 ≤ a.2))

instance : IsTotal (SearchItem × Int) rankRel := ⟨fun a b => Int.le_total b.2 a.2⟩

instance : IsTrans (SearchItem × Int) rankRel := ⟨fun _ _ _ hab hbc => le_trans hbc hab⟩

/-- The sorted positive-score part of the pipeline:
`scoredItems.filter((s) => s.score > 0).sort((a, b) => b.score - a.score)`. -/
def rankedScored (searchQuery : Str) (items : List SearchItem) : List (SearchItem × Int) :=
  ((scoredCatalog searchQuery items).filter (fun s => decide (s.2 > 0))).insertionSort rankRel

/-- The `searchResults` memo of `TopBar.tsx`: empty for a blank (all
whitespace) query, otherwise the scored, filtered, sorted catalog mapped back
to items and truncated to 8 results (`.map((s) => s.item).slice(0, 8)`). -/
def searchResults (searchQuery : Str) (items : List SearchItem) : List SearchItem :=
  if strTrim searchQuery = [] then []
  else ((rankedScored searchQuery items).map (fun s => s.1)).take 8

/-! ## Definitions: the scoring algorithm as the specification words it.
`claimLabelScore`/`claimKeywordScore`/`claimBaseScore` follow the spec's
two-stage description (label tiers first, keywords only when the label stage
scored 0).  `claimScoreStated` adds the priority exactly as the claim states
it (default 50 only when the priority is unset); `claimScoreAmended` adds it
the way the code does (50 also for an explicit priority 0). -/

/-- Modelled from the spec: the label stage of the score table. -/
def claimLabelScore (query : Str) (item : SearchItem) : Int :=
  if strLower item.label = query then 1000
  else if strStarts (strLower item.label) query then 500
  else if strHas (strLower item.label) query then 300
  else 0

/-- Modelled from the spec: the keyword stage of the score table. -/
def claimKeywordScore (query : Str) (item : SearchItem) : Int :=
  if kwSome item.keywords (fun k => strLower k = query) then 200
  else if kwSome item.keywords (fun k => strStarts (strLower k) query) then 150
  else if kwSome item.keywords (fun k => strHas (strLower k) query) then 100
  else 0

/-- Modelled from the spec: keywords are consulted only when the label stage
produced 0. -/
def claimBaseScore (query : Str) (item : SearchItem) : Int :=
  if claimLabelScore query item ≠ 0 then claimLabelScore query item
  else claimKeywordScore query item

/-- Modelled from the spec, word for word: base score plus the priority,
"default 50 if unset". -/
def claimScoreStated (query : Str) (item : SearchItem) : Int :=
  if claimBaseScore query item > 0 then claimBaseScore query item + item.priority.getD 50
  else 0

/-- The amended combined score: base score plus the priority when it is set
and non-zero, otherwise plus 50 (matching `item.priority || 50`). -/
def claimScoreAmended (query : Str) (item : SearchItem) : Int :=
  if claimBaseScore query item > 0 then claimBaseScore query item + effPriority item.priority
  else 0

/-! ## Definitions: match-kind predicates over the code's own checks -/

/-- The lower-cased label equals the lower-cased query. -/
abbrev labelExact (query : Str) (item : SearchItem) : Prop := strLower item.label = query

/-- The label matches only partially: not equal, but a starts-with or a
contains match. -/
abbrev labelPartOnly (query : Str) (item : SearchItem) : Prop :=
  strLower item.label ≠ query ∧
  (strStarts (strLower item.label) query = true ∨ strHas (strLower item.label) query = true)

/-- Some label check (equality, starts-with or contains) succeeds. -/
abbrev labelAny (query : Str) (item : SearchItem) : Prop :=
  strLower item.label = query ∨ strStarts (strLower item.label) query = true ∨
    strHas (strLower item.label) query = true

/-- Some keyword check (equality, starts-with or contains) succeeds. -/
abbrev keywordAny (query : Str) (item : SearchItem) : Prop :=
  kwSome item.keywords (fun k => strLower k = query) = true ∨
  kwSome item.keywords (fun k => strStarts (strLower k) query) = true ∨
  kwSome item.keywords (fun k => strHas (strLower k) query) = true

/-- The item matches through keywords only: every label check fails and some
keyword check succeeds. -/
abbrev keywordOnly (query : Str) (item : SearchItem) : Prop :=
  ¬ labelAny query item ∧ keywordAny query item

/-! ## Definitions: concrete catalog entries used as test inputs -/

/-- An entry whose label is exactly "a" with an explicit priority of 0. -/
def itemPriorityZero : SearchItem := ⟨['z'], ['a'], .page, ['/'], none, none, some 0⟩

/-- An exact-label match for "a" with an in-range priority. -/
def wExact : SearchItem := ⟨['a'], ['a'], .page, ['/'], none, none, some 100⟩

/-- A starts-with label match for "a" with an in-range priority. -/
def wPart : SearchItem := ⟨['b'], ['a', 'b'], .page, ['/'], none, none, some 40⟩

/-- An exact-label match for "a" with a crafted tiny priority. -/
def cExact : SearchItem := ⟨['a'], ['a'], .page, ['/'], none, none, some 1⟩

/-- A starts-with label match for "a" with a crafted huge priority. -/
def cPart : SearchItem := ⟨['b'], ['a', 'b'], .page, ['/'], none, none, some 502⟩

/-- A one-entry demo catalog item whose label is "hi". -/
def demoItem : SearchItem := ⟨['h'], ['h', 'i'], .page, ['/'], none, none, some 100⟩

/-! ## Definitions: selection controller (`handleSearchKeyDown` and the
reset-on-results-change effect) -/

/-- ArrowDown: `prev < searchResults.length - 1 ? prev + 1 : prev`. -/
def moveDown (len : Nat) (prev : Int) : Int :=
  if prev < (len : Int) - 1 then prev + 1 else prev

/-- ArrowUp: `prev > 0 ? prev - 1 : -1`. -/
def moveUp (prev : Int) : Int :=
  if prev > 0 then prev - 1 else -1

/-- The selection state: the current results length and
`selectedResultIndex`. -/
structure SelState where
  len : Nat
  idx : Int
  deriving DecidableEq

/-- The events that change the selection index. -/
inductive SelEvent where
  | arrowDown
  | arrowUp
  | resultsChanged (newLen : Nat)
  deriving DecidableEq

/-- One step of the selection controller: the two arrow-key updaters, and the
`useEffect` on `[searchResults]` that resets the index to -1. -/
def selStep : SelEvent → SelState → SelState
  | .arrowDown, s => { s with idx := moveDown s.len s.idx }
  | .arrowUp, s => { s with idx := moveUp s.idx }
  | .resultsChanged n, _ => { len := n, idx := -1 }

/-- The claimed range invariant on the selection index. -/
def SelInv (s : SelState) : Prop := -1 ≤ s.idx ∧ s.idx ≤ (s.len : Int) - 1

/-! ## Definitions: catalog fetch with mount guard (`loadSearchResults`) -/

/-- Outcome of the catalog fetch: a rejected promise, or a response carrying
`response.ok` and the decoded data. -/
inductive FetchOutcome where
  | networkFailure
  | response (ok : Bool) (data : List SearchItem)

/-- The effect of one resolution of `loadSearchResults` on `searchableItems`
(first component), given whether the component is still mounted; the second
component records whether `console.error` ran.  A non-ok response throws
before `setSearchableItems`, and the catch logs; a resolution after unmount
skips `setSearchableItems` because of the `isMounted` guard. -/
def loadSearchResults (prev : List SearchItem) (outcome : FetchOutcome)
    (isMounted : Bool) : List SearchItem × Bool :=
  match outcome with
  | .networkFailure => (prev, true)
  | .response ok data =>
    if !ok then (prev, true)
    else if isMounted then (data, false)
    else (prev, false)

/-! ## Definitions: scroll-phase machine (`scrollPhase` effects of `TopBar`) -/

/-- The `scrollPhase` values: 'idle' | 'hide' | 'show' (`shown` models
'show', which is reserved in Lean). -/
inductive ScrollPhase where
  | idle
  | hide
  | shown
  deriving DecidableEq

/-- Component state relevant to the scroll-phase effect.  `timer` holds the
pending `setTimeout` handle as a (token, deadline) pair; `clearTimeout` is
modelled by replacing or dropping the token. -/
structure PhaseState where
  hasMounted : Bool
  isScrolled : Bool
  phase : ScrollPhase
  timer : Option (Nat × Nat)
  nextToken : Nat
  deriving DecidableEq

/-- The state at the first render: `useState(false)` twice, `useState('idle')`,
no timer. -/
def initialPhaseState : PhaseState :=
  { hasMounted := false, isScrolled := false, phase := .idle, timer := none, nextToken := 0 }

/-- One run of the `[isScrolled]` effect at time `now`: the first run only
consumes the `hasMountedRef` guard; later runs set the phase from the scroll
direction and (re)arm the 450 ms timeout, cancelling any previous one. -/
def phaseEffect (now : Nat) (s : PhaseState) : PhaseState :=
  if s.hasMounted = false then { s with hasMounted := true }
  else
    { s with
      phase := if s.isScrolled then .hide else .shown
      timer := some (s.nextToken, now + 450)
      nextToken := s.nextToken + 1 }

/-- A scroll event at time `now` with `window.scrollY = y`:
`setIsScrolled(window.scrollY > 100)`; the `[isScrolled]` effect re-runs only
when the value changed. -/
def scrollStep (now : Nat) (y : Nat) (s : PhaseState) : PhaseState :=
  if (decide (y > 100)) = s.isScrolled then s
  else phaseEffect now { s with isScrolled := decide (y > 100) }

/-- The timeout callback with token `tok` firing: it resets the phase to idle
only if it has not been cancelled (its token is still the armed one). -/
def timerFire (tok : Nat) (s : PhaseState) : PhaseState :=
  match s.timer with
  | some (t, _) => if t = tok then { s with phase := .idle, timer := none } else s
  | none => s

/-- Mounting the component on a page with `window.scrollY = y`: the
`[isScrolled]` effect runs once against the initial state (consuming the
guard), then the mount-time `handleScroll()` call of the scroll-detection
effect syncs `isScrolled`, re-running the `[isScrolled]` effect if the value
changed. -/
def mountTopBar (now : Nat) (y : Nat) : PhaseState :=
  scrollStep now y (phaseEffect now initialPhaseState)

/-! ## Definitions: scroll-to-section hook (`useScrollToSection.ts`) -/

/-- The fixed allowlist of tracked section ids in `handleScroll`. -/
def trackedSections : List String := ["operator-portal", "mobile-app"]

/-- The comparator `(a, b) => a.offsetTop - b.offsetTop`: ascending offsets. -/
def offRel (a b : String × Int) : Prop := a.2 ≤ b.2

instance : DecidableRel offRel := fun a b => inferInstanceAs (Decidable (a.2 ≤ b.2))

instance : IsTotal (String × Int) offRel := ⟨fun a b => Int.le_total a.2 b.2⟩

instance : IsTrans (String × Int) offRel := ⟨fun _ _ _ hab hbc => le_trans hab hbc⟩

/-- The `orderedSections` local of `handleScroll`: tracked sections present in
the document paired with their `offsetTop` (`getElementById` is modelled by
`dom`, absent sections giving `none`), sorted by ascending offset with the
stable JavaScript sort. -/
def orderedSections (dom : String → Option Int) : List (String × Int) :=
  (trackedSections.filterMap (fun s => (dom s).map (fun o => (s, o)))).insertionSort offRel

/-- `handleScroll` of `useScrollToSection`: the walk over `orderedSections`
keeps the last section whose offset is at most `scrollY + 150`; the source
then calls `setActiveSection` with that walk result and, when
`window.scrollY < 50`, immediately overwrites it with "home", so the final
state is this single expression. -/
def handleScroll (scrollY : Int) (dom : String → Option Int) : String :=
  if scrollY < 50 then "home"
  else (orderedSections dom).foldl
    (fun cur p => if p.2 ≤ scrollY + 150 then p.1 else cur) "home"

/-- A document with operator-portal at offset 800 and mobile-app at 1600. -/
def domW : String → Option Int := fun s =>
  if s = "operator-portal" then some 800 else if s = "mobile-app" then some 1600 else none

/-- The active-section state after a sequence of scroll events, each carrying
the scroll position and the section offsets found in the document; the hook
starts from "home" and each event overwrites the state with the
`handleScroll` result. -/
def runScroll (events : List (Int × (String → Option Int))) : String :=
  events.foldl (fun _ e => handleScroll e.1 e.2) "home"

/-! ## Character-level lemmas about the case mappings -/

theorem toNat_ofNat_of_valid {n : Nat} (h : n < 55296) : (Char.ofNat n).toNat = n := by
  rw [Char.ofNat, dif_pos (Or.inl h)]
  rfl

theorem toLower_of_upper {c : Char} (h : c.toNat ≥ 65 ∧ c.toNat ≤ 90) :
    Char.toLower c = Char.ofNat (c.toNat + 32) := by
  rw [Char.toLower, if_pos h]

theorem toLower_of_not_upper {c : Char} (h : ¬(c.toNat ≥ 65 ∧ c.toNat ≤ 90)) :
    Char.toLower c = c := by
  rw [Char.toLower, if_neg h]

theorem toNat_toLower_of_upper {c : Char} (h : c.toNat ≥ 65 ∧ c.toNat ≤ 90) :
    (Char.toLower c).toNat = c.toNat + 32 := by
  rw [toLower_of_upper h, toNat_ofNat_of_valid (by omega)]

theorem toUpper_of_lower {c : Char} (h : c.toNat ≥ 97 ∧ c.toNat ≤ 122) :
    Char.toUpper c = Char.ofNat (c.toNat - 32) := by
  rw [Char.toUpper, if_pos h]

theorem toUpper_of_not_lower {c : Char} (h : ¬(c.toNat ≥ 97 ∧ c.toNat ≤ 122)) :
    Char.toUpper c = c := by
  rw [Char.toUpper, if_neg h]

theorem toNat_toUpper_of_lower {c : Char} (h : c.toNat ≥ 97 ∧ c.toNat ≤ 122) :
    (Char.toUpper c).toNat = c.toNat - 32 := by
  rw [toUpper_of_lower h, toNat_ofNat_of_valid (by omega)]

theorem toLower_toLower (c : Char) : Char.toLower (Char.toLower c) = Char.toLower c := by
  by_cases h : c.toNat ≥ 65 ∧ c.toNat ≤ 90
  · have hn := toNat_toLower_of_upper h
    exact toLower_of_not_upper (by omega)
  · rw [toLower_of_not_upper h]
    exact toLower_of_not_upper h

theorem toLower_toUpper (c : Char) : Char.toLower (Char.toUpper c) = Char.toLower c := by
  by_cases h : c.toNat ≥ 97 ∧ c.toNat ≤ 122
  · have hu := toNat_toUpper_of_lower h
    rw [toLower_of_upper (by omega), toLower_of_not_upper (by omega), hu]
    have hc : c.toNat - 32 + 32 = c.toNat := by omega
    rw [hc, Char.ofNat_toNat]
  · rw [toUpper_of_not_lower h]

theorem isWhitespace_toNat {c : Char} (h : c.isWhitespace = true) :
    c.toNat = 32 ∨ c.toNat = 9 ∨ c.toNat = 13 ∨ c.toNat = 10 := by
  rw [Char.isWhitespace] at h
  simp only [Bool.or_eq_true, decide_eq_true_eq] at h
  rcases h with ((h | h) | h) | h <;> subst h <;> decide

theorem isWhitespace_eq_false_of_range {c : Char} (h65 : 65 ≤ c.toNat) (h122 : c.toNat ≤ 122) :
    c.isWhitespace = false := by
  cases hb : c.isWhitespace
  · rfl
  · exact absurd (isWhitespace_toNat hb) (by omega)

theorem isWhitespace_toLower (c : Char) : (Char.toLower c).isWhitespace = c.isWhitespace := by
  by_cases h : c.toNat ≥ 65 ∧ c.toNat ≤ 90
  · have hn := toNat_toLower_of_upper h
    rw [isWhitespace_eq_false_of_range (by omega) (by omega),
        isWhitespace_eq_false_of_range (c := c) (by omega) (by omega)]
  · rw [toLower_of_not_upper h]

theorem isWhitespace_toUpper (c : Char) : (Char.toUpper c).isWhitespace = c.isWhitespace := by
  by_cases h : c.toNat ≥ 97 ∧ c.toNat ≤ 122
  · have hn := toNat_toUpper_of_lower h
    rw [isWhitespace_eq_false_of_range (by omega) (by omega),
        isWhitespace_eq_false_of_range (c := c) (by omega) (by omega)]
  · rw [toUpper_of_not_lower h]

/-! ## String-level lemmas: trimming commutes with the case maps,
lower-casing is idempotent and absorbs upper-casing -/

theorem strTrim_map (f : Char → Char) (hf : ∀ c, (f c).isWhitespace = c.isWhitespace)
    (s : Str) : strTrim (s.map f) = (strTrim s).map f := by
  have hpf : (Char.isWhitespace ∘ f) = Char.isWhitespace := funext hf
  unfold strTrim
  rw [List.dropWhile_map, hpf, ← List.map_reverse, List.dropWhile_map, hpf, ← List.map_reverse]

theorem strTrim_strLower_nil (q : Str) : strTrim (strLower q) = [] ↔ strTrim q = [] := by
  rw [strLower, strTrim_map Char.toLower isWhitespace_toLower]
  exact List.map_eq_nil_iff

theorem strTrim_strUpper_nil (q : Str) : strTrim (strUpper q) = [] ↔ strTrim q = [] := by
  rw [strUpper, strTrim_map Char.toUpper isWhitespace_toUpper]
  exact List.map_eq_nil_iff

theorem strLower_strLower (q : Str) : strLower (strLower q) = strLower q := by
  have hc : Char.toLower ∘ Char.toLower = Char.toLower := funext toLower_toLower
  rw [strLower, strLower, List.map_map, hc]

theorem strLower_strUpper (q : Str) : strLower (strUpper q) = strLower q := by
  have hc : Char.toLower ∘ Char.toUpper = Char.toLower := funext toLower_toUpper
  rw [strLower, strUpper, strLower, List.map_map, hc]

/-! ## Lemmas about the ranking pipeline -/

theorem searchResults_lower_eq (q : Str) (items : List SearchItem) :
    searchResults q items = searchResults (strLower q) items := by
  unfold searchResults
  by_cases h : strTrim q = []
  · rw [if_pos h, if_pos ((strTrim_strLower_nil q).mpr h)]
  · rw [if_neg h, if_neg (fun hc => h ((strTrim_strLower_nil q).mp hc))]
    unfold rankedScored scoredCatalog
    rw [strLower_strLower]

theorem searchResults_upper_eq (q : Str) (items : List SearchItem) :
    searchResults q items = searchResults (strUpper q) items := by
  unfold searchResults
  by_cases h : strTrim q = []
  · rw [if_pos h, if_pos ((strTrim_strUpper_nil q).mpr h)]
  · rw [if_neg h, if_neg (fun hc => h ((strTrim_strUpper_nil q).mp hc))]
    unfold rankedScored scoredCatalog
    rw [strLower_strUpper]

theorem searchResults_nil (q : Str) : searchResults q [] = [] := by
  unfold searchResults
  split
  · rfl
  · rfl

theorem itemScore_of_pos (q : Str) (item : SearchItem) (h : baseScore q item > 0) :
    itemScore q item = baseScore q item + effPriority item.priority := by
  unfold itemScore
  rw [if_pos h]

theorem itemScore_eq_claimAmended (q : Str) (item : SearchItem) :
    itemScore q item = claimScoreAmended q item := by
  unfold itemScore claimScoreAmended claimBaseScore claimLabelScore claimKeywordScore baseScore
  by_cases h1 : strLower item.label = q
  · simp [h1]
  · by_cases h2 : strStarts (strLower item.label) q
    · simp [h1, h2]
    · by_cases h3 : strHas (strLower item.label) q
      · simp [h1, h2, h3]
      · by_cases h4 : kwSome item.keywords (fun k => strLower k = q)
        · simp [h1, h2, h3, h4]
        · by_cases h5 : kwSome item.keywords (fun k => strStarts (strLower k) q)
          · simp [h1, h2, h3, h4, h5]
          · by_cases h6 : kwSome item.keywords (fun k => strHas (strLower k) q)
            · simp [h1, h2, h3, h4, h5, h6]
            · simp [h1, h2, h3, h4, h5, h6]

theorem baseScore_of_labelExact {q : Str} {item : SearchItem} (h : labelExact q item) :
    baseScore q item = 1000 := by
  have h' : strLower item.label = q := h
  unfold baseScore
  rw [if_pos h']

theorem baseScore_of_labelPartOnly {q : Str} {item : SearchItem} (h : labelPartOnly q item) :
    baseScore q item = 500 ∨ baseScore q item = 300 := by
  have h1 : ¬ (strLower item.label = q) := h.1
  unfold baseScore
  rw [if_neg h1]
  by_cases hst : strStarts (strLower item.label) q = true
  · rw [if_pos hst]
    exact Or.inl rfl
  · rcases h.2 with hs | hh
    · exact absurd hs hst
    · rw [if_neg hst, if_pos hh]
      exact Or.inr rfl

theorem baseScore_of_labelAny {q : Str} {item : SearchItem} (h : labelAny q item) :
    300 ≤ baseScore q item := by
  unfold baseScore
  by_cases he : strLower item.label = q
  · rw [if_pos he]
    omega
  · rw [if_neg he]
    by_cases hs : strStarts (strLower item.label) q = true
    · rw [if_pos hs]
      omega
    · rw [if_neg hs]
      rcases h with h | h | h
      · exact absurd h he
      · exact absurd h hs
      · rw [if_pos h]

theorem baseScore_of_keywordOnly {q : Str} {item : SearchItem} (h : keywordOnly q item) :
    100 ≤ baseScore q item ∧ baseScore q item ≤ 200 := by
  obtain ⟨hno, hkw⟩ := h
  have hno' : ¬(strLower item.label = q ∨ strStarts (strLower item.label) q = true ∨
      strHas (strLower item.label) q = true) := hno
  rw [not_or, not_or] at hno'
  obtain ⟨h1, h2, h3⟩ := hno'
  unfold baseScore
  rw [if_neg h1, if_neg h2, if_neg h3]
  by_cases k1 : kwSome item.keywords (fun k => strLower k = q) = true
  · rw [if_pos k1]
    omega
  · rw [if_neg k1]
    by_cases k2 : kwSome item.keywords (fun k => strStarts (strLower k) q) = true
    · rw [if_pos k2]
      omega
    · rw [if_neg k2]
      rcases hkw with h | h | h
      · exact absurd h k1
      · exact absurd h k2
      · rw [if_pos h]
        omega

theorem pairwise_middle {α : Type} {R : α → α → Prop} {l1 l2 l3 : List α} {x y : α}
    (hp : (l1 ++ x :: (l2 ++ y :: l3)).Pairwise R) : R x y := by
  obtain ⟨-, h2, -⟩ := List.pairwise_append.mp hp
  exact List.rel_of_pairwise_cons h2 (by simp)

/-! ## Lemmas about the section walk -/

theorem foldl_no_qual (pos : Int) :
    ∀ (l : List (String × Int)) (acc : String),
      (∀ p ∈ l, ¬ p.2 ≤ pos) →
      l.foldl (fun cur p => if p.2 ≤ pos then p.1 else cur) acc = acc := by
  intro l
  induction l with
  | nil => intro acc _; rfl
  | cons a l ih =>
    intro acc h
    rw [List.foldl_cons, if_neg (h a (List.mem_cons_self a l))]
    exact ih acc (fun p hp => h p (List.mem_cons_of_mem a hp))

theorem foldl_last_qual (pos : Int) :
    ∀ (l : List (String × Int)) (acc : String),
      l.Pairwise offRel →
      (∃ p ∈ l, p.2 ≤ pos) →
      ∃ p ∈ l, l.foldl (fun cur r => if r.2 ≤ pos then r.1 else cur) acc = p.1 ∧ p.2 ≤ pos ∧
        ∀ r ∈ l, r.2 ≤ pos → r.2 ≤ p.2 := by
  intro l
  induction l with
  | nil =>
    rintro acc _ ⟨p, hp, -⟩
    exact absurd hp (List.not_mem_nil p)
  | cons a l ih =>
    intro acc hpw hex
    by_cases hq : ∃ p ∈ l, p.2 ≤ pos
    · obtain ⟨p, hp, hfold, hple, hmax⟩ :=
        ih (if a.2 ≤ pos then a.1 else acc) (List.Pairwise.of_cons hpw) hq
      refine ⟨p, List.mem_cons_of_mem a hp, ?_, hple, ?_⟩
      · rw [List.foldl_cons]
        exact hfold
      · intro r hr hrle
        rcases List.mem_cons.mp hr with hra | hr'
        · subst hra
          exact List.rel_of_pairwise_cons hpw hp
        · exact hmax r hr' hrle
    · have hq' : ∀ p ∈ l, ¬ p.2 ≤ pos := fun p hp hle => hq ⟨p, hp, hle⟩
      have haq : a.2 ≤ pos := by
        obtain ⟨p, hp, hple⟩ := hex
        rcases List.mem_cons.mp hp with hpa | hp'
        · subst hpa
          exact hple
        · exact absurd hple (hq' p hp')
      refine ⟨a, List.mem_cons_self a l, ?_, haq, ?_⟩
      · rw [List.foldl_cons, if_pos haq]
        exact foldl_no_qual pos l a.1 hq'
      · intro r hr hrle
        rcases List.mem_cons.mp hr with hra | hr'
        · subst hra
          exact le_refl _
        · exact absurd hrle (hq' r hr')

theorem mem_orderedSections {dom : String → Option Int} {p : String × Int} :
    p ∈ orderedSections dom ↔ (p.1 ∈ trackedSections ∧ dom p.1 = some p.2) := by
  rw [orderedSections, List.mem_insertionSort offRel, List.mem_filterMap]
  constructor
  · rintro ⟨s, hs, hmap⟩
    cases hdom : dom s with
    | none =>
      rw [hdom] at hmap
      exact absurd hmap (by simp)
    | some o =>
      rw [hdom] at hmap
      simp only [Option.map_some', Option.some.injEq] at hmap
      subst hmap
      exact ⟨hs, hdom⟩
  · rintro ⟨hmem, hdom⟩
    refine ⟨p.1, hmem, ?_⟩
    rw [hdom]
    simp

theorem foldl_allowed (pos : Int) :
    ∀ (l : List (String × Int)) (acc : String),
      (∀ p ∈ l, p.1 ∈ trackedSections) →
      (acc = "home" ∨ acc ∈ trackedSections) →
      (l.foldl (fun cur p => if p.2 ≤ pos then p.1 else cur) acc = "home" ∨
        l.foldl (fun cur p => if p.2 ≤ pos then p.1 else cur) acc ∈ trackedSections) := by
  intro l
  induction l with
  | nil => intro acc _ hacc; exact hacc
  | cons a l ih =>
    intro acc hmem hacc
    rw [List.foldl_cons]
    refine ih _ (fun p hp => hmem p (List.mem_cons_of_mem a hp)) ?_
    split
    · exact Or.inr (hmem a (List.mem_cons_self a l))
    · exact hacc

theorem handleScroll_allowed (y : Int) (dom : String → Option Int) :
    handleScroll y dom = "home" ∨ handleScroll y dom ∈ trackedSections := by
  rw [handleScroll]
  split
  · exact Or.inl rfl
  · exact foldl_allowed (y + 150) _ "home"
      (fun p hp => (mem_orderedSections.mp hp).1) (Or.inl rfl)

/-! ## The claims -/

/-- Claim C1 (amended): for every catalog and every query with a non-empty
trimmed form, `searchResults` is exactly the pipeline that scores every item
with the spec's two-stage score table over the lower-cased query — label
checks first (equal 1000, starts-with 500, contains 300) and keyword checks
only when the label stage scored 0 (equal 200, starts-with 150, contains
100) — drops items scoring 0, and adds to each positive base score the item's
priority when it is set and non-zero, and 50 when it is unset *or zero* (the
amendment: the source computes `item.priority || 50`, so an explicit priority
of 0 also gets the default). -/
theorem c1_scoring_amended (q : Str) (items : List SearchItem) (h : strTrim q ≠ []) :
    searchResults q items =
      ((((items.map (fun item => (item, claimScoreAmended (strLower q) item))).filter
          (fun s => decide (s.2 > 0))).insertionSort rankRel).map (fun s => s.1)).take 8 := by
  have hmap : (fun item => (item, claimScoreAmended (strLower q) item))
      = (fun item => (item, itemScore (strLower q) item)) :=
    funext fun item => by rw [itemScore_eq_claimAmended]
  rw [searchResults, if_neg h, rankedScored, scoredCatalog, hmap]

/-- Claim C1, witness: the amended scoring law evaluated on the concrete
catalog `[itemPriorityZero]` with query "a". -/
theorem c1_scoring_amended_witness :
    strTrim ['a'] ≠ [] ∧
    searchResults ['a'] [itemPriorityZero] =
      (((([itemPriorityZero].map
            (fun item => (item, claimScoreAmended (strLower ['a']) item))).filter
          (fun s => decide (s.2 > 0))).insertionSort rankRel).map (fun s => s.1)).take 8 :=
  ⟨by decide, c1_scoring_amended ['a'] [itemPriorityZero] (by decide)⟩

/-- Claim C1, counterexample to the claim as stated: for the entry with label
"a" and explicit priority 0 and the query "a", the code's combined score is
1050 (the falsy priority 0 is replaced by the default 50), while the claim's
"priority (default 50 if unset) added" predicts 1000 + 0 = 1000. -/
theorem c1_scoring_counterexample :
    itemScore ['a'] itemPriorityZero = 1050 ∧
    claimScoreStated ['a'] itemPriorityZero = 1000 ∧
    itemScore ['a'] itemPriorityZero ≠ claimScoreStated ['a'] itemPriorityZero := by
  decide

/-- Claim C2: for every query and catalog the returned list has at most 8
entries; every entry of the sorted scored list has positive (hence non-zero)
combined score; the sorted scored list is ordered by descending combined
score (`rankRel`); the sort is stable (a pair of equal-score entries in
catalog order stays in that order); the sorted list is a permutation of the
positive-score part of the scored catalog; and for a non-blank query the
returned list is exactly the first 8 entries of that sorted list — i.e. a
top-8 prefix of the score-sorted catalog with catalog-order tie-breaking. -/
theorem c2_topk_ranking (q : Str) (items : List SearchItem) :
    (searchResults q items).length ≤ 8 ∧
    (∀ p ∈ rankedScored q items, 0 < p.2) ∧
    (rankedScored q items).Pairwise rankRel ∧
    (∀ a b : SearchItem × Int, a.2 = b.2 →
        [a, b].Sublist ((scoredCatalog q items).filter (fun s => decide (s.2 > 0))) →
        [a, b].Sublist (rankedScored q items)) ∧
    (rankedScored q items).Perm ((scoredCatalog q items).filter (fun s => decide (s.2 > 0))) ∧
    (strTrim q ≠ [] → searchResults q items = ((rankedScored q items).map (fun s => s.1)).take 8) := by
  refine ⟨?_, ?_, ?_, ?_, ?_, ?_⟩
  · rw [searchResults]
    split
    · simp
    · exact le_trans (List.length_take_le 8 _) (le_refl 8)
  · intro p hp
    rw [rankedScored] at hp
    have hm := (List.mem_insertionSort rankRel).mp hp
    have := (List.mem_filter.mp hm).2
    exact of_decide_eq_true this
  · exact List.sorted_insertionSort rankRel _
  · intro a b hab hsub
    exact List.pair_sublist_insertionSort (le_of_eq hab.symm) hsub
  · exact List.perm_insertionSort rankRel _
  · intro h
    rw [searchResults, if_neg h]

/-- Claim C2, witness: the top-8-prefix equation evaluated on a concrete
one-entry catalog with query "h". -/
theorem c2_topk_ranking_witness :
    strTrim ['h'] ≠ [] ∧
    searchResults ['h'] [demoItem] =
      ((rankedScored ['h'] [demoItem]).map (fun s => s.1)).take 8 :=
  ⟨by decide, (c2_topk_ranking ['h'] [demoItem]).2.2.2.2.2 (by decide)⟩

/-- Claim C3 (amended): for priorities in the catalog's documented 40..100
range (the amendment: the restriction is necessary, the claim's "whatever
integer priority values" is refuted by `c3_tiers_counterexample`), an
exact-label match strictly outscores a partial-label match, any label match
strictly outscores a keyword-only match, and the ranked list never places a
strictly lower-scored entry before a higher-scored one. -/
theorem c3_tiers_amended (q : Str) (a b : SearchItem)
    (ha1 : 40 ≤ effPriority a.priority) (ha2 : effPriority a.priority ≤ 100)
    (hb1 : 40 ≤ effPriority b.priority) (hb2 : effPriority b.priority ≤ 100) :
    (labelExact (strLower q) a → labelPartOnly (strLower q) b →
        itemScore (strLower q) b < itemScore (strLower q) a) ∧
    (labelAny (strLower q) a → keywordOnly (strLower q) b →
        itemScore (strLower q) b < itemScore (strLower q) a) ∧
    (∀ (items : List SearchItem) (l1 l2 l3 : List (SearchItem × Int)) (x y : SearchItem × Int),
        x.2 < y.2 → rankedScored q items ≠ l1 ++ x :: (l2 ++ y :: l3)) := by
  refine ⟨?_, ?_, ?_⟩
  · intro hea hpb
    have hba := baseScore_of_labelExact hea
    have hbb := baseScore_of_labelPartOnly hpb
    have hsa := itemScore_of_pos (strLower q) a (by omega)
    have hsb := itemScore_of_pos (strLower q) b (by omega)
    omega
  · intro hla hkb
    have hba := baseScore_of_labelAny hla
    have hbb := baseScore_of_keywordOnly hkb
    have hsa := itemScore_of_pos (strLower q) a (by omega)
    have hsb := itemScore_of_pos (strLower q) b (by omega)
    omega
  · intro items l1 l2 l3 x y hxy heq
    have hs : (rankedScored q items).Pairwise rankRel := List.sorted_insertionSort rankRel _
    rw [heq] at hs
    have hr := pairwise_middle hs
    rw [rankRel] at hr
    omega

/-- Claim C3, witness: with both priorities in range, the partial match "ab"
scores strictly below the exact match "a" for query "a". -/
theorem c3_tiers_witness :
    itemScore (strLower ['a']) wPart < itemScore (strLower ['a']) wExact :=
  (c3_tiers_amended ['a'] wExact wPart (by decide) (by decide) (by decide) (by decide)).1
    (by decide) (by decide)

/-- Claim C3, counterexample to the claim as stated: with unrestricted
integer priorities, the entry `cExact` (label exactly "a", priority 1, score
1001) is ranked *below* the entry `cPart` (label "ab", a mere starts-with
match, priority 502, score 1002) — priorities can invert the tiers. -/
theorem c3_tiers_counterexample :
    labelExact (strLower ['a']) cExact ∧ labelPartOnly (strLower ['a']) cPart ∧
    searchResults ['a'] [cExact, cPart] = [cPart, cExact] := by
  decide

/-- Claim C4: on a scroll event, when `scrollY < 50` the active section is
forced to "home"; otherwise, when no present tracked section has offset at
most `scrollY + 150` the result is "home"; and when some present tracked
section qualifies, the result is a present tracked section that qualifies and
whose offset is maximal among all qualifying present tracked sections (the
furthest-down qualifying section).  Absent sections (`dom s = none`) are
skipped throughout. -/
theorem c4_active_section (y : Int) (dom : String → Option Int) :
    (y < 50 → handleScroll y dom = "home") ∧
    (¬ y < 50 → (∀ s ∈ trackedSections, ∀ o : Int, dom s = some o → ¬ o ≤ y + 150) →
        handleScroll y dom = "home") ∧
    (¬ y < 50 → ∀ s ∈ trackedSections, ∀ o : Int, dom s = some o → o ≤ y + 150 →
        ∃ t u, handleScroll y dom = t ∧ t ∈ trackedSections ∧ dom t = some u ∧
          u ≤ y + 150 ∧
          ∀ s' ∈ trackedSections, ∀ o' : Int, dom s' = some o' → o' ≤ y + 150 → o' ≤ u) := by
  refine ⟨?_, ?_, ?_⟩
  · intro h
    rw [handleScroll, if_pos h]
  · intro h hnone
    rw [handleScroll, if_neg h]
    exact foldl_no_qual (y + 150) _ "home"
      (fun p hp => hnone p.1 (mem_orderedSections.mp hp).1 p.2 (mem_orderedSections.mp hp).2)
  · intro h s hs o ho hle
    obtain ⟨p, hp, hfold, hple, hmax⟩ :=
      foldl_last_qual (y + 150) (orderedSections dom) "home"
        (List.sorted_insertionSort offRel _) ⟨(s, o), mem_orderedSections.mpr ⟨hs, ho⟩, hle⟩
    refine ⟨p.1, p.2, ?_, (mem_orderedSections.mp hp).1, (mem_orderedSections.mp hp).2, hple, ?_⟩
    · rw [handleScroll, if_neg h]
      exact hfold
    · intro s' hs' o' ho' hle'
      exact hmax (s', o') (mem_orderedSections.mpr ⟨hs', ho'⟩) hle'

/-- Claim C4, witness: at `scrollY = 10` (below the 50px override) the active
section is "home" regardless of the tracked offsets 800/1600. -/
theorem c4_active_section_witness : handleScroll 10 domW = "home" :=
  (c4_active_section 10 domW).1 (by decide)

/-- Claim C5: from any state satisfying the range invariant
`-1 ≤ idx ≤ length - 1`, every event preserves the invariant; ArrowDown at
the last index is a no-op; ArrowUp at -1 is a no-op; and a results change
resets the index to -1. -/
theorem c5_selection_bounds (s : SelState) (e : SelEvent) (h : SelInv s) :
    SelInv (selStep e s) ∧
    (s.idx = (s.len : Int) - 1 → selStep .arrowDown s = s) ∧
    (s.idx = -1 → selStep .arrowUp s = s) ∧
    (∀ n, (selStep (.resultsChanged n) s).idx = -1) := by
  obtain ⟨h1, h2⟩ := h
  refine ⟨?_, ?_, ?_, fun n => rfl⟩
  · cases e with
    | arrowDown =>
      simp only [selStep, moveDown, SelInv]
      split <;> constructor <;> omega
    | arrowUp =>
      simp only [selStep, moveUp, SelInv]
      split <;> constructor <;> omega
    | resultsChanged n =>
      simp only [selStep, SelInv]
      constructor <;> omega
  · intro hlast
    simp only [selStep, moveDown]
    rw [if_neg (by omega)]
  · intro hneg
    simp only [selStep, moveUp]
    rw [if_neg (by omega), ← hneg]

/-- Claim C5, witness: with 3 results and the cursor on the last index 2,
ArrowDown keeps the invariant and is a no-op. -/
theorem c5_selection_bounds_witness :
    SelInv (selStep .arrowDown ⟨3, 2⟩) ∧ selStep .arrowDown ⟨3, 2⟩ = ⟨3, 2⟩ := by
  have h := c5_selection_bounds ⟨3, 2⟩ .arrowDown ⟨by decide, by decide⟩
  exact ⟨h.1, h.2.1 (by decide)⟩

/-- Claim C6: `searchResults` is a pure function of the query and catalog (it
is a Lean function), is case-insensitive in the query — the result is
unchanged under lower-casing or upper-casing the query — and returns the
empty list for every query whose trimmed form is empty. -/
theorem c6_case_insensitive (q : Str) (items : List SearchItem) :
    searchResults q items = searchResults (strLower q) items ∧
    searchResults q items = searchResults (strUpper q) items ∧
    (strTrim q = [] → searchResults q items = []) :=
  ⟨searchResults_lower_eq q items, searchResults_upper_eq q items,
    fun h => by rw [searchResults, if_pos h]⟩

/-- Claim C6, witness: the whitespace-only query " \t" returns no results,
and the query "Pay" ranks exactly like its lower-cased form. -/
theorem c6_case_insensitive_witness :
    searchResults [' ', '\t'] [demoItem] = [] ∧
    searchResults ['P', 'a', 'y'] [demoItem] =
      searchResults (strLower ['P', 'a', 'y']) [demoItem] :=
  ⟨(c6_case_insensitive [' ', '\t'] [demoItem]).2.2 (by decide),
   (c6_case_insensitive ['P', 'a', 'y'] [demoItem]).1⟩

/-- Claim C7: on a network failure or a non-ok response the error is caught
and logged and the (initially empty) catalog is unchanged, so search returns
no results for every query; and whenever the component is unmounted before
the fetch resolves, the fetched data is discarded and the catalog state is
unchanged. -/
theorem c7_fetch_guard (outcome : FetchOutcome) (mounted : Bool) :
    ((outcome = .networkFailure ∨ ∃ d, outcome = .response false d) →
        (loadSearchResults [] outcome mounted).1 = [] ∧
        (loadSearchResults [] outcome mounted).2 = true ∧
        ∀ q, searchResults q (loadSearchResults [] outcome mounted).1 = []) ∧
    (∀ prev, mounted = false → (loadSearchResults prev outcome mounted).1 = prev) := by
  constructor
  · intro herr
    rcases herr with h | ⟨d, h⟩ <;> subst h
    · exact ⟨rfl, rfl, fun q => searchResults_nil q⟩
    · exact ⟨rfl, rfl, fun q => searchResults_nil q⟩
  · intro prev hm
    subst hm
    cases outcome with
    | networkFailure => rfl
    | response ok data =>
      cases ok with
      | false => rfl
      | true => rfl

/-- Claim C7, witness: a network failure leaves the catalog empty, logs, and
search stays empty. -/
theorem c7_fetch_guard_witness :
    (loadSearchResults [] .networkFailure true).1 = [] ∧
    (loadSearchResults [] .networkFailure true).2 = true ∧
    ∀ q, searchResults q (loadSearchResults [] .networkFailure true).1 = [] :=
  (c7_fetch_guard .networkFailure true).1 (Or.inl rfl)

/-- Claim C8, evaluated on the code's behaviour: mounting at the top leaves
the phase idle; a downward crossing sets hide and arms a 450 ms timeout whose
firing reverts to idle; an upward crossing sets show and cancels the previous
timeout (the stale callback is a no-op, the fresh one reverts to idle).  But
mounting on a page already scrolled past the threshold (`scrollY = 200`)
*does* fire a hide transition — the mount-time `handleScroll()` sync flips
`isScrolled` after the `hasMountedRef` guard was consumed by the effect's
first run — contradicting the claim's "no phase transition ever fires on the
component's first mount, even when the page is already scrolled". -/
theorem c8_phase_machine :
    (mountTopBar 0 0).phase = ScrollPhase.idle ∧
    (mountTopBar 0 200).phase = ScrollPhase.hide ∧
    (mountTopBar 0 200).phase ≠ ScrollPhase.idle ∧
    (scrollStep 1000 200 (mountTopBar 0 0)).phase = ScrollPhase.hide ∧
    (scrollStep 1000 200 (mountTopBar 0 0)).timer = some (0, 1450) ∧
    (timerFire 0 (scrollStep 1000 200 (mountTopBar 0 0))).phase = ScrollPhase.idle ∧
    (scrollStep 1200 0 (scrollStep 1000 200 (mountTopBar 0 0))).phase = ScrollPhase.shown ∧
    (timerFire 0 (scrollStep 1200 0 (scrollStep 1000 200 (mountTopBar 0 0)))).phase
      = ScrollPhase.shown ∧
    (timerFire 1 (scrollStep 1200 0 (scrollStep 1000 200 (mountTopBar 0 0)))).phase
      = ScrollPhase.idle := by
  decide

/-- Claim C9: for every matching entry (positive base score), the amount
added is `effPriority`: the priority itself when set and non-zero, and 50
when unset or set to 0 — so an explicit priority of 0 is never honored, and
an entry with priority 0 scores exactly like the same entry with no
priority. -/
theorem c9_priority_falsy (q : Str) (item : SearchItem) (h : baseScore q item > 0) :
    itemScore q item = baseScore q item + effPriority item.priority ∧
    (item.priority = some 0 → itemScore q item = baseScore q item + 50) ∧
    (∀ p : Int, item.priority = some p → p ≠ 0 → itemScore q item = baseScore q item + p) ∧
    (item.priority = none → itemScore q item = baseScore q item + 50) ∧
    itemScore q { item with priority := some 0 } = itemScore q { item with priority := none } := by
  have hb0 : baseScore q { item with priority := some 0 } = baseScore q item := rfl
  have hbn : baseScore q { item with priority := none } = baseScore q item := rfl
  refine ⟨itemScore_of_pos q item h, ?_, ?_, ?_, ?_⟩
  · intro hp
    rw [itemScore_of_pos q item h, hp]
    rfl
  · intro p hp hpne
    rw [itemScore_of_pos q item h, hp]
    simp [effPriority, hpne]
  · intro hp
    rw [itemScore_of_pos q item h, hp]
    rfl
  · rw [itemScore_of_pos q { item with priority := some 0 } (by rw [hb0]; exact h),
        itemScore_of_pos q { item with priority := none } (by rw [hbn]; exact h), hb0, hbn]
    rfl

/-- Claim C9, witness: the entry with label "a" and explicit priority 0 gets
50 added for the query "a". -/
theorem c9_priority_falsy_witness :
    itemScore ['a'] itemPriorityZero = baseScore ['a'] itemPriorityZero + 50 :=
  (c9_priority_falsy ['a'] itemPriorityZero (by decide)).2.1 rfl

/-- Claim C10: the active section starts at "home", and after any sequence of
scroll events — with arbitrary offsets and arbitrary presence or absence of
the tracked elements — it is always "home", "operator-portal" or
"mobile-app"; no other value is reachable. -/
theorem c10_allowlist :
    runScroll [] = "home" ∧
    ∀ events : List (Int × (String → Option Int)),
      runScroll events = "home" ∨ runScroll events = "operator-portal" ∨
        runScroll events = "mobile-app" := by
  constructor
  · rfl
  · have key : ∀ (events : List (Int × (String → Option Int))) (acc : String),
        (acc = "home" ∨ acc ∈ trackedSections) →
        (events.foldl (fun _ e => handleScroll e.1 e.2) acc = "home" ∨
          events.foldl (fun _ e => handleScroll e.1 e.2) acc ∈ trackedSections) := by
      intro events
      induction events with
      | nil => intro acc hacc; exact hacc
      | cons e es ih =>
        intro acc _
        rw [List.foldl_cons]
        exact ih _ (handleScroll_allowed e.1 e.2)
    intro events
    have h := key events "home" (Or.inl rfl)
    rw [runScroll]
    rcases h with h | h
    · exact Or.inl h
    · rw [trackedSections] at h
      rcases List.mem_cons.mp h with h | h
      · exact Or.inr (Or.inl h)
      · rcases List.mem_cons.mp h with h | h
        · exact Or.inr (Or.inr h)
        · exact absurd h (List.not_mem_nil _)
